import Mathlib

/-!
Verification of the line classifier and ANSI-SGR-to-HTML renderer of
`esp32_serial_monitor.py`.  Strings are modelled as `List Char`; every
definition below is a direct translation of the corresponding Python
function, and the theorems at the end of the file settle the frozen
claims about them.
-/

namespace Esp32

/-! ## Basic string utilities -/

/-- One pass of Python's `str.replace(pat, repl)` for a single-character
pattern, applied character by character. -/
def replaceChar (pat : Char) (repl : List Char) : List Char → List Char
  | [] => []
  | c :: t => (if c = pat then repl else [c]) ++ replaceChar pat repl t

/-- Translation of `html_escape` (source lines 36-39): the three chained
`replace` calls for `&`, `<`, `>`, in the source's order. -/
def htmlEscape (s : List Char) : List Char :=
  replaceChar '>' "&gt;".toList
    (replaceChar '<' "&lt;".toList
      (replaceChar '&' "&amp;".toList s))

/-- The whitespace set trimmed by Python's `str.strip()` (ASCII part;
the classifier inputs contain no non-ASCII unicode whitespace). -/
def pySpace (c : Char) : Bool :=
  c = ' ' || c = '\t' || c = '\n' || c = '\r' || c = '\x0b' || c = '\x0c'

/-- Translation of `s.strip()`. -/
def pyStrip (s : List Char) : List Char :=
  ((s.dropWhile pySpace).reverse.dropWhile pySpace).reverse

/-- Translation of `s.lower()` (ASCII case folding). -/
def pyLower (s : List Char) : List Char :=
  s.map Char.toLower

/-- Boolean test that `p` occurs at the start of `l`; models the prefix
test underlying Python's `in` operator. -/
def startsWithL : List Char → List Char → Bool
  | [], _ => true
  | _ :: _, [] => false
  | a :: p, b :: l => a == b && startsWithL p l

/-- Boolean substring containment: models Python's `pat in s` on strings. -/
def containsSub (p : List Char) : List Char → Bool
  | [] => startsWithL p []
  | c :: t => startsWithL p (c :: t) || containsSub p t

/-- Occurrence of `p` as a contiguous substring of `l`, as a proposition. -/
def OccursIn (p l : List Char) : Prop :=
  ∃ u v, l = u ++ p ++ v

/-! ## The classifier (`classify_line`, source lines 42-57) -/

/-- The ANSI escape introducer `"\x1b["` checked on the raw line. -/
def escIntro : List Char := "\x1b[".toList

/-- Error tokens of `classify_line` (source line 47). -/
def errorTokens : List (List Char) :=
  ["error", "fatal", "fail", "exception", "assert", " e ", "[e]", " e/"].map String.toList

/-- Warning tokens of `classify_line` (source line 49). -/
def warningTokens : List (List Char) :=
  ["warn", "warning", " w ", "[w]", " w/"].map String.toList

/-- Info tokens of `classify_line` (source line 51). -/
def infoTokens : List (List Char) :=
  ["info", " i ", "[i]", " i/"].map String.toList

/-- Debug tokens of `classify_line` (source line 53). -/
def debugTokens : List (List Char) :=
  ["debug", "dbg", " d ", "[d]", " d/"].map String.toList

/-- Verbose tokens of `classify_line` (source line 55). -/
def verboseTokens : List (List Char) :=
  ["verb", "trace", " v ", "[v]", " v/"].map String.toList

/-- The keyword cascade of `classify_line` on the stripped, lowered line:
the five `any(x in t for x in (...))` checks in source order, with
`'default'` as the final fallback (source lines 47-57). -/
def keywordClassify (t : List Char) : List Char :=
  if errorTokens.any (fun x => containsSub x t) then "error".toList
  else if warningTokens.any (fun x => containsSub x t) then "warning".toList
  else if infoTokens.any (fun x => containsSub x t) then "info".toList
  else if debugTokens.any (fun x => containsSub x t) then "debug".toList
  else if verboseTokens.any (fun x => containsSub x t) then "verbose".toList
  else "default".toList

/-- Translation of `classify_line` (source lines 42-57): lowercase the
stripped line, return `'ansi'` when the raw line contains `"\x1b["`,
otherwise run the keyword cascade. -/
def classifyLine (s : List Char) : List Char :=
  if containsSub escIntro s then "ansi".toList
  else keywordClassify (pyLower (pyStrip s))

/-! ## The ANSI renderer (`ansi_to_html`, source lines 60-135) -/

/-- A character allowed inside the regex group of `ANSI_RE`, i.e. `[0-9;]`
(source line 15). -/
def isCodeChar (c : Char) : Bool :=
  c.isDigit || c = ';'

/-- Leftmost match of `ANSI_RE = r'\x1b\[([0-9;]*)m'` in `s`: returns the
text before the match, the captured group, and the text after the match.
A position where `\x1b[` is not followed by `[0-9;]*` and then `m` is not
a match, and scanning resumes one character further, exactly as
`re.finditer` does. -/
def findMatch : List Char → Option (List Char × List Char × List Char)
  | [] => none
  | c :: t =>
    if c = '\x1b' then
      match t with
      | '[' :: u =>
        match u.dropWhile isCodeChar with
        | 'm' :: rest => some ([], u.takeWhile isCodeChar, rest)
        | _ => (findMatch t).map (fun x => (c :: x.1, x.2.1, x.2.2))
      | _ => (findMatch t).map (fun x => (c :: x.1, x.2.1, x.2.2))
    else (findMatch t).map (fun x => (c :: x.1, x.2.1, x.2.2))

/-- Fuel-indexed iteration of `findMatch`, mirroring the `for m in
ANSI_RE.finditer(s)` loop: the list of (preceding text, code group)
pairs, together with the trailing text after the last match.  The fuel
only serves termination; `tokenize` supplies enough of it. -/
def tokenizeF : Nat → List Char → List (List Char × List Char) × List Char
  | 0, s => ([], s)
  | n + 1, s =>
    match findMatch s with
    | none => ([], s)
    | some (pre, codes, rest) =>
      ((pre, codes) :: (tokenizeF n rest).1, (tokenizeF n rest).2)

/-- All matches of `ANSI_RE` in `s` with the text between them. -/
def tokenize (s : List Char) : List (List Char × List Char) × List Char :=
  tokenizeF (s.length + 1) s

/-- The mutable `current_style` dictionary of `ansi_to_html`: an optional
foreground color string and the bold flag (absent key modelled as
`false`). -/
structure Style where
  color : Option (List Char)
  bold : Bool
deriving DecidableEq

/-- The `ANSI_COLOR` dictionary (source lines 18-23). -/
def ansiColorTable : List (Nat × List Char) :=
  [(30, "#000000".toList), (31, "#ff4d4d".toList), (32, "#00ff00".toList),
   (33, "#ffff00".toList), (34, "#4da3ff".toList), (35, "#ff66ff".toList),
   (36, "#00ffff".toList), (37, "#e0e0e0".toList),
   (90, "#808080".toList), (91, "#ff8080".toList), (92, "#80ff80".toList),
   (93, "#ffff80".toList), (94, "#a0c8ff".toList), (95, "#ff9cff".toList),
   (96, "#a0ffff".toList), (97, "#ffffff".toList)]

/-- The `ANSI_COLOR.get(n, LOG_COLORS['default'])` lookup (source line
114); the default is `LOG_COLORS['default'] = "#e0e0e0"`. -/
def ansiColorGet (n : Nat) : List Char :=
  match ansiColorTable.find? (fun e => e.1 == n) with
  | some e => e.2
  | none => "#e0e0e0".toList

/-- Python's `";".join(parts)`. -/
def joinSep : List (List Char) → List Char
  | [] => []
  | [x] => x
  | x :: y :: r => x ++ ';' :: joinSep (y :: r)

/-- Translation of the nested `style_to_html` helper (source lines
70-76). -/
def styleToHtml (st : Style) : List Char :=
  joinSep
    ((match st.color with
      | some c => ["color:".toList ++ c]
      | none => []) ++
     (if st.bold then ["font-weight:600".toList] else []))

/-- The literal `"</span>"` appended by the renderer. -/
def closeTagL : List Char := "</span>".toList

/-- The literal `f'<span style="{st}">'` appended by the renderer. -/
def openTagL (st : Style) : List Char :=
  "<span style=\"".toList ++ styleToHtml st ++ "\">".toList

/-- Python's `codes.split(";")`. -/
def splitSemi : List Char → List (List Char)
  | [] => [[]]
  | c :: t =>
    if c = ';' then [] :: splitSemi t
    else
      match splitSemi t with
      | h :: r => (c :: h) :: r
      | [] => [[c]]

/-- Python's `int(c)` on the sub-code strings reachable here (the split
pieces of a `[0-9;]*` group are digit strings, so the signed, spaced and
underscored `int` forms never occur): a value for a nonempty digit
string, a `ValueError` otherwise. -/
def pyInt (s : List Char) : Except Unit Nat :=
  if s.isEmpty then Except.error ()
  else if s.all Char.isDigit then
    Except.ok (s.foldl (fun a c => a * 10 + (c.toNat - 48)) 0)
  else Except.error ()

/-- The `for c in codes.split(";")` loop of `ansi_to_html` (source lines
98-117): returns the HTML emitted inside the loop (a `</span>` when a
`0` sub-code closes the open span), the updated style and the updated
`open_span` flag. -/
def procSubs : List (List Char) → Style → Bool → List Char × Style × Bool
  | [], st, opn => ([], st, opn)
  | c :: cs, st, opn =>
    if c.isEmpty then procSubs cs st opn
    else
      match pyInt c with
      | Except.error _ => procSubs cs st opn
      | Except.ok n =>
        if n = 0 then
          ((if opn then closeTagL else []) ++ (procSubs cs ⟨none, false⟩ false).1,
           (procSubs cs ⟨none, false⟩ false).2)
        else if n = 1 then procSubs cs ⟨st.color, true⟩ opn
        else if (30 ≤ n ∧ n ≤ 37) ∨ (90 ≤ n ∧ n ≤ 97) then
          procSubs cs ⟨some (ansiColorGet n), st.bold⟩ opn
        else procSubs cs st opn

/-- The body of the `finditer` loop of `ansi_to_html` together with the
tail handling (source lines 78-134), as a fold over the token list: emit
the escaped text before each match; a group equal to `""` or `"0"`
closes any open span and clears the style; any other group runs the
sub-code loop, closes any span still open and reopens a span exactly
when the new style serializes to a nonempty string; after the last match
the escaped tail is emitted and a still-open span is closed. -/
def renderToks : List (List Char × List Char) → List Char → Style → Bool → List Char
  | [], tl, _, opn => htmlEscape tl ++ (if opn then closeTagL else [])
  | (pre, codes) :: rest, tl, st, opn =>
    if codes = [] ∨ codes = ['0'] then
      htmlEscape pre ++ (if opn then closeTagL else []) ++
        renderToks rest tl ⟨none, false⟩ false
    else
      htmlEscape pre ++ (procSubs (splitSemi codes) st opn).1 ++
        (if (procSubs (splitSemi codes) st opn).2.2 then closeTagL else []) ++
        (if (styleToHtml (procSubs (splitSemi codes) st opn).2.1).isEmpty then
          renderToks rest tl (procSubs (splitSemi codes) st opn).2.1 false
        else
          openTagL (procSubs (splitSemi codes) st opn).2.1 ++
            renderToks rest tl (procSubs (splitSemi codes) st opn).2.1 true)

/-- Translation of `ansi_to_html` (source lines 60-135): tokenize by the
`ANSI_RE` matches, then run the rendering loop from the empty style with
no open span. -/
def ansiToHtml (s : List Char) : List Char :=
  renderToks (tokenize s).1 (tokenize s).2 ⟨none, false⟩ false

/-- The visible text of a line: the text outside the `ANSI_RE` matches. -/
def stripToks : List (List Char × List Char) → List Char → List Char
  | [], tl => tl
  | (pre, _) :: r, tl => pre ++ stripToks r tl

/-- The input with every recognized ANSI escape sequence removed. -/
def stripAnsi (s : List Char) : List Char :=
  stripToks (tokenize s).1 (tokenize s).2

/-! ## Observers used by the claims -/

/-- Drops every `<`...`>` tag region from an HTML fragment; the Boolean
state is `true` while inside a tag. -/
def stripTags : Bool → List Char → List Char
  | _, [] => []
  | true, c :: t => if c = '>' then stripTags false t else stripTags true t
  | false, c :: t => if c = '<' then stripTags true t else c :: stripTags false t

/-- Decodes the `&amp;`, `&lt;`, `&gt;` entities produced by
`html_escape` back to `&`, `<`, `>`. -/
def unescape : List Char → List Char
  | '&' :: 'a' :: 'm' :: 'p' :: ';' :: r => '&' :: unescape r
  | '&' :: 'l' :: 't' :: ';' :: r => '<' :: unescape r
  | '&' :: 'g' :: 't' :: ';' :: r => '>' :: unescape r
  | c :: t => c :: unescape t
  | [] => []

/-- Span-tag balance checker: a `<` opening a tag at depth 0 enters a
span, a `</` at depth 1 leaves it; an opening at depth 1 (nested span),
a closing at depth 0 (unmatched close) or a nonzero final depth
(dangling open span) all fail. -/
def balAux : List Char → Nat → Bool
  | [], d => d == 0
  | '<' :: '/' :: t, d => (d == 1) && balAux t 0
  | '<' :: c :: t, d => (d == 0) && balAux (c :: t) 1
  | ['<'], _ => false
  | _ :: t, d => balAux t d

/-- An HTML fragment whose spans are properly balanced, never nested and
never left open. -/
def spanBalanced (l : List Char) : Bool :=
  balAux l 0

/-! ## Claim-side definitions (formalizing the spec's words, for
comparison with the source translations) -/

/-- Formalization of the claim's level-tag pattern: one of `I`, `W`,
`E`, `V`, `D`, then optional whitespace, then a parenthesized numeric
timestamp; returns the category the claim maps the letter to. -/
def specLevelTagCat (s : List Char) : Option (List Char) :=
  match s with
  | [] => none
  | c :: rest =>
    match
      (if c = 'I' then some "info".toList else if c = 'W' then some "warning".toList
       else if c = 'E' then some "error".toList else if c = 'V' then some "verbose".toList
       else if c = 'D' then some "debug".toList else none) with
    | none => none
    | some cat =>
      match rest.dropWhile pySpace with
      | '(' :: r2 =>
        if (r2.takeWhile Char.isDigit).isEmpty then none
        else
          match r2.dropWhile Char.isDigit with
          | ')' :: _ => some cat
          | _ => none
      | _ => none

/-- The severity keyword lists exactly as the claim states them. -/
def specC6Tokens : List (List Char) :=
  ["error", "fatal", "fail", "exception", "assert", "warn", "info",
   "debug", "dbg", "verb", "trace"].map String.toList

/-- The per-sub-code style effect exactly as the claim words it: `1`
sets bold, a value in [30,37] or [90,97] sets the palette color, any
other numeric value and any non-numeric token leave the state
unchanged. -/
def claimSubStyle (st : Style) (c : List Char) : Style :=
  match pyInt c with
  | Except.error _ => st
  | Except.ok n =>
    if n = 1 then ⟨st.color, true⟩
    else if (30 ≤ n ∧ n ≤ 37) ∨ (90 ≤ n ∧ n ≤ 97) then ⟨some (ansiColorGet n), st.bold⟩
    else st

/-- The per-sub-code style effect as the amended claim states it: like
`claimSubStyle`, but a `0` sub-code clears the whole style state. -/
def specSubStyle (st : Style) (c : List Char) : Style :=
  match pyInt c with
  | Except.error _ => st
  | Except.ok n =>
    if n = 0 then ⟨none, false⟩
    else if n = 1 then ⟨st.color, true⟩
    else if (30 ≤ n ∧ n ≤ 37) ∨ (90 ≤ n ∧ n ≤ 97) then ⟨some (ansiColorGet n), st.bold⟩
    else st

/-! ## Lemmas about `html_escape` -/

theorem replaceChar_append (p : Char) (r a b : List Char) :
    replaceChar p r (a ++ b) = replaceChar p r a ++ replaceChar p r b := by
  induction a with
  | nil => simp [replaceChar]
  | cons c t ih => simp [replaceChar, ih]

theorem htmlEscape_nil : htmlEscape [] = [] := rfl

theorem htmlEscape_cons (c : Char) (t : List Char) :
    htmlEscape (c :: t) = htmlEscape [c] ++ htmlEscape t := by
  have h : (c :: t) = [c] ++ t := rfl
  rw [htmlEscape, h, replaceChar_append, replaceChar_append, replaceChar_append]
  rfl

theorem mem_replaceChar {p : Char} {r l : List Char} {c : Char}
    (h : c ∈ replaceChar p r l) : c ∈ r ∨ (c ∈ l ∧ c ≠ p) := by
  induction l with
  | nil => simp [replaceChar] at h
  | cons d t ih =>
    simp only [replaceChar, List.mem_append] at h
    rcases h with h | h
    · by_cases hd : d = p
      · simp [hd] at h
        exact Or.inl h
      · simp [hd] at h
        exact Or.inr ⟨by simp [h], by simp [h, hd]⟩
    · rcases ih h with h1 | ⟨h2, h3⟩
      · exact Or.inl h1
      · exact Or.inr ⟨List.mem_cons_of_mem _ h2, h3⟩

theorem htmlEscape_noAngle {s : List Char} {c : Char} (h : c ∈ htmlEscape s) :
    c ≠ '<' ∧ c ≠ '>' := by
  rw [htmlEscape] at h
  have egt : "&gt;".toList = ['&', 'g', 't', ';'] := rfl
  have elt : "&lt;".toList = ['&', 'l', 't', ';'] := rfl
  rcases mem_replaceChar h with h1 | ⟨h2, hgt⟩
  · rw [egt] at h1
    have : c = '&' ∨ c = 'g' ∨ c = 't' ∨ c = ';' := by simpa using h1
    rcases this with rfl | rfl | rfl | rfl <;> exact ⟨by decide, by decide⟩
  · rcases mem_replaceChar h2 with h3 | ⟨_, hlt⟩
    · rw [elt] at h3
      have : c = '&' ∨ c = 'l' ∨ c = 't' ∨ c = ';' := by simpa using h3
      rcases this with rfl | rfl | rfl | rfl <;> exact ⟨by decide, by decide⟩
    · exact ⟨hlt, hgt⟩

/-! ## Lemmas about `unescape` -/

theorem unescape_cons_ne {c : Char} (t : List Char) (h : c ≠ '&') :
    unescape (c :: t) = c :: unescape t := by
  rw [unescape.eq_def]
  split <;> simp_all

theorem unescape_escape (a b : List Char) :
    unescape (htmlEscape a ++ b) = a ++ unescape b := by
  induction a with
  | nil => simp [htmlEscape_nil]
  | cons c t ih =>
    rw [htmlEscape_cons, List.append_assoc]
    by_cases h1 : c = '&'
    · subst h1
      have he : htmlEscape ['&'] = "&amp;".toList := rfl
      rw [he]
      show unescape ('&' :: 'a' :: 'm' :: 'p' :: ';' :: (htmlEscape t ++ b)) = _
      rw [unescape, ih]
      rfl
    · by_cases h2 : c = '<'
      · subst h2
        have he : htmlEscape ['<'] = "&lt;".toList := rfl
        rw [he]
        show unescape ('&' :: 'l' :: 't' :: ';' :: (htmlEscape t ++ b)) = _
        rw [unescape, ih]
        rfl
      · by_cases h3 : c = '>'
        · subst h3
          have he : htmlEscape ['>'] = "&gt;".toList := rfl
          rw [he]
          show unescape ('&' :: 'g' :: 't' :: ';' :: (htmlEscape t ++ b)) = _
          rw [unescape, ih]
          rfl
        · have he : htmlEscape [c] = [c] := by
            simp [htmlEscape, replaceChar, h1, h2, h3]
          rw [he]
          show unescape (c :: (htmlEscape t ++ b)) = _
          rw [unescape_cons_ne _ h1, ih]
          rfl

theorem unescape_htmlEscape (a : List Char) : unescape (htmlEscape a) = a := by
  have := unescape_escape a []
  simpa [unescape] using this

/-! ## Substring containment -/

theorem startsWithL_iff (p l : List Char) :
    startsWithL p l = true ↔ ∃ v, l = p ++ v := by
  induction p generalizing l with
  | nil => simp [startsWithL]
  | cons a p ih =>
    cases l with
    | nil => simp [startsWithL]
    | cons b l =>
      simp only [startsWithL, Bool.and_eq_true, beq_iff_eq, ih]
      constructor
      · rintro ⟨rfl, v, rfl⟩
        exact ⟨v, rfl⟩
      · rintro ⟨v, hv⟩
        injection hv with hb hl
        exact ⟨hb.symm, v, hl⟩

theorem containsSub_iff (p l : List Char) :
    containsSub p l = true ↔ OccursIn p l := by
  induction l with
  | nil =>
    simp only [containsSub, startsWithL_iff, OccursIn]
    constructor
    · rintro ⟨v, hv⟩
      exact ⟨[], v, by simpa using hv⟩
    · rintro ⟨u, v, huv⟩
      have hu : u = [] := by
        cases u with
        | nil => rfl
        | cons x xs => simp at huv
      subst hu
      exact ⟨v, by simpa using huv⟩
  | cons c t ih =>
    simp only [containsSub, Bool.or_eq_true, startsWithL_iff, ih, OccursIn]
    constructor
    · rintro (⟨v, hv⟩ | ⟨u, v, rfl⟩)
      · exact ⟨[], v, by simpa using hv⟩
      · exact ⟨c :: u, v, rfl⟩
    · rintro ⟨u, v, huv⟩
      cases u with
      | nil => exact Or.inl ⟨v, by simpa using huv⟩
      | cons x xs =>
        injection huv with hx ht
        exact Or.inr ⟨xs, v, ht⟩

instance (p l : List Char) : Decidable (OccursIn p l) :=
  decidable_of_iff _ (containsSub_iff p l)

/-! ## Lemmas about `stripTags` -/

theorem stripTags_app_noLt {a : List Char} (b : List Char)
    (h : ∀ c ∈ a, c ≠ '<') :
    stripTags false (a ++ b) = a ++ stripTags false b := by
  induction a with
  | nil => rfl
  | cons c t ih =>
    have hc : c ≠ '<' := h c (List.mem_cons_self _ _)
    simp only [List.cons_append, stripTags, if_neg hc, List.append_eq]
    rw [ih (fun x hx => h x (List.mem_cons_of_mem _ hx))]

theorem stripTags_true_noGt {m : List Char} (b : List Char)
    (h : ∀ c ∈ m, c ≠ '>') :
    stripTags true (m ++ b) = stripTags true b := by
  induction m with
  | nil => rfl
  | cons c t ih =>
    have hc : c ≠ '>' := h c (List.mem_cons_self _ _)
    simp only [List.cons_append, stripTags, if_neg hc]
    exact ih (fun x hx => h x (List.mem_cons_of_mem _ hx))

theorem stripTags_close (b : List Char) :
    stripTags false (closeTagL ++ b) = stripTags false b := rfl

theorem stripTags_open (st : Style) (b : List Char)
    (h : ∀ c ∈ styleToHtml st, c ≠ '>') :
    stripTags false (openTagL st ++ b) = stripTags false b := by
  have e : openTagL st ++ b
      = '<' :: (("span style=\"".toList ++ (styleToHtml st ++ ['\"'])) ++ ('>' :: b)) := by
    simp [openTagL]
  rw [e]
  have e2 : stripTags false
      ('<' :: (("span style=\"".toList ++ (styleToHtml st ++ ['\"'])) ++ ('>' :: b)))
      = stripTags true (("span style=\"".toList ++ (styleToHtml st ++ ['\"'])) ++ ('>' :: b)) := by
    simp [stripTags]
  rw [e2, stripTags_true_noGt]
  · rfl
  · intro c hc
    rcases List.mem_append.1 hc with h1 | h2
    · have hA : ∀ x ∈ "span style=\"".toList, x ≠ '>' := by decide
      exact hA c h1
    · rcases List.mem_append.1 h2 with h3 | h4
      · exact h c h3
      · have hB : ∀ x ∈ ['\"'], x ≠ '>' := by decide
        exact hB c h4

/-! ## Lemmas about `balAux` -/

theorem balAux_cons_ne {c : Char} (t : List Char) (d : Nat) (h : c ≠ '<') :
    balAux (c :: t) d = balAux t d := by
  rw [balAux.eq_def]
  split <;> simp_all

theorem balAux_app_noLt {a : List Char} (b : List Char) (d : Nat)
    (h : ∀ c ∈ a, c ≠ '<') :
    balAux (a ++ b) d = balAux b d := by
  induction a with
  | nil => rfl
  | cons c t ih =>
    rw [List.cons_append, balAux_cons_ne _ _ (h c (List.mem_cons_self _ _))]
    exact ih (fun x hx => h x (List.mem_cons_of_mem _ hx))

theorem balAux_close (b : List Char) :
    balAux (closeTagL ++ b) 1 = balAux b 0 := rfl

theorem balAux_open (st : Style) (b : List Char)
    (h : ∀ c ∈ styleToHtml st, c ≠ '<') :
    balAux (openTagL st ++ b) 0 = balAux b 1 := by
  have e : openTagL st ++ b
      = '<' :: 's' :: (("pan style=\"".toList ++ (styleToHtml st ++ ['\"', '>'])) ++ b) := by
    simp [openTagL]
  rw [e]
  show balAux ((('s' :: "pan style=\"".toList) ++ (styleToHtml st ++ ['\"', '>'])) ++ b) 1
      = balAux b 1
  refine balAux_app_noLt b 1 ?_
  intro c hc
  rcases List.mem_append.1 hc with h1 | h2
  · have hA : ∀ x ∈ 's' :: "pan style=\"".toList, x ≠ '<' := by decide
    exact hA c h1
  · rcases List.mem_append.1 h2 with h3 | h4
    · exact h c h3
    · have hB : ∀ x ∈ ['\"', '>'], x ≠ '<' := by decide
      exact hB c h4

/-! ## Style invariants -/

/-- The color stored in the style state (if any) contains no angle
bracket; this holds initially and is preserved by the sub-code loop,
since every stored color comes from the palette. -/
def StyleOk (st : Style) : Prop :=
  ∀ l, st.color = some l → ∀ c ∈ l, c ≠ '<' ∧ c ≠ '>'

theorem styleOk_empty : StyleOk ⟨none, false⟩ := by
  intro l hl
  simp at hl

theorem ansiColorGet_noAng (n : Nat) : ∀ c ∈ ansiColorGet n, c ≠ '<' ∧ c ≠ '>' := by
  unfold ansiColorGet
  rcases hf : ansiColorTable.find? (fun e => e.1 == n) with _ | e <;> rw [hf]
  · decide
  · have hm : e ∈ ansiColorTable := List.mem_of_find?_eq_some hf
    have hA : ∀ p ∈ ansiColorTable, ∀ c ∈ p.2, c ≠ '<' ∧ c ≠ '>' := by decide
    exact hA e hm

theorem styleToHtml_noAng {st : Style} (hst : StyleOk st) :
    ∀ c ∈ styleToHtml st, c ≠ '<' ∧ c ≠ '>' := by
  intro c hc
  obtain ⟨co, bo⟩ := st
  cases co with
  | none =>
    cases bo with
    | false => simp [styleToHtml, joinSep] at hc
    | true =>
      have hA : ∀ x ∈ styleToHtml ⟨none, true⟩, x ≠ '<' ∧ x ≠ '>' := by decide
      exact hA c hc
  | some l =>
    have hl : ∀ x ∈ l, x ≠ '<' ∧ x ≠ '>' := hst l rfl
    have key : styleToHtml ⟨some l, bo⟩
        = "color:".toList ++ l ++ (if bo then ';' :: "font-weight:600".toList else []) := by
      cases bo <;> simp [styleToHtml, joinSep]
    rw [key] at hc
    rcases List.mem_append.1 hc with h1 | h2
    · rcases List.mem_append.1 h1 with h3 | h4
      · have hA : ∀ x ∈ "color:".toList, x ≠ '<' ∧ x ≠ '>' := by decide
        exact hA c h3
      · exact hl c h4
    · have hB : ∀ x ∈ (if bo then ';' :: "font-weight:600".toList else ([] : List Char)),
          x ≠ '<' ∧ x ≠ '>' := by
        cases bo <;> decide
      exact hB c h2

/-! ## Lemmas about `procSubs` -/

theorem procSubs_styleOk (cs : List (List Char)) (st : Style) (opn : Bool)
    (hst : StyleOk st) : StyleOk (procSubs cs st opn).2.1 := by
  induction cs generalizing st opn with
  | nil => exact hst
  | cons c cs ih =>
    by_cases hce : c.isEmpty
    · simpa [procSubs, hce] using ih st opn hst
    · rcases hpi : pyInt c with e | n
      · simpa [procSubs, hce, hpi] using ih st opn hst
      · by_cases h0 : n = 0
        · simpa [procSubs, hce, hpi, h0] using ih ⟨none, false⟩ false styleOk_empty
        · by_cases h1 : n = 1
          · have : StyleOk ⟨st.color, true⟩ := fun l hl => hst l hl
            simpa [procSubs, hce, hpi, h0, h1] using ih ⟨st.color, true⟩ opn this
          · by_cases hr : (30 ≤ n ∧ n ≤ 37) ∨ (90 ≤ n ∧ n ≤ 97)
            · have : StyleOk ⟨some (ansiColorGet n), st.bold⟩ := by
                intro l hl
                injection hl with hl
                subst hl
                exact ansiColorGet_noAng n
              simpa [procSubs, hce, hpi, h0, h1, hr] using
                ih ⟨some (ansiColorGet n), st.bold⟩ opn this
            · simpa [procSubs, hce, hpi, h0, h1, hr] using ih st opn hst

theorem procSubs_false (cs : List (List Char)) (st : Style) :
    (procSubs cs st false).1 = [] ∧ (procSubs cs st false).2.2 = false := by
  induction cs generalizing st with
  | nil => exact ⟨rfl, rfl⟩
  | cons c cs ih =>
    by_cases hce : c.isEmpty
    · simpa [procSubs, hce] using ih st
    · rcases hpi : pyInt c with e | n
      · simpa [procSubs, hce, hpi] using ih st
      · by_cases h0 : n = 0
        · simpa [procSubs, hce, hpi, h0] using ih ⟨none, false⟩
        · by_cases h1 : n = 1
          · simpa [procSubs, hce, hpi, h0, h1] using ih ⟨st.color, true⟩
          · by_cases hr : (30 ≤ n ∧ n ≤ 37) ∨ (90 ≤ n ∧ n ≤ 97)
            · simpa [procSubs, hce, hpi, h0, h1, hr] using ih ⟨some (ansiColorGet n), st.bold⟩
            · simpa [procSubs, hce, hpi, h0, h1, hr] using ih st

theorem procSubs_true (cs : List (List Char)) (st : Style) :
    ((procSubs cs st true).1 = [] ∧ (procSubs cs st true).2.2 = true) ∨
      ((procSubs cs st true).1 = closeTagL ∧ (procSubs cs st true).2.2 = false) := by
  induction cs generalizing st with
  | nil => exact Or.inl ⟨rfl, rfl⟩
  | cons c cs ih =>
    by_cases hce : c.isEmpty
    · simpa [procSubs, hce] using ih st
    · rcases hpi : pyInt c with e | n
      · simpa [procSubs, hce, hpi] using ih st
      · by_cases h0 : n = 0
        · have hf := procSubs_false cs ⟨none, false⟩
          refine Or.inr ?_
          simp [procSubs, hce, hpi, h0, hf.1, hf.2]
        · by_cases h1 : n = 1
          · simpa [procSubs, hce, hpi, h0, h1] using ih ⟨st.color, true⟩
          · by_cases hr : (30 ≤ n ∧ n ≤ 37) ∨ (90 ≤ n ∧ n ≤ 97)
            · simpa [procSubs, hce, hpi, h0, h1, hr] using ih ⟨some (ansiColorGet n), st.bold⟩
            · simpa [procSubs, hce, hpi, h0, h1, hr] using ih st

/-! ## Lemmas about `findMatch` and `tokenize` -/

theorem findMatch_some (s : List Char) :
    ∀ pre codes rest, findMatch s = some (pre, codes, rest) →
      s = pre ++ '\x1b' :: '[' :: (codes ++ 'm' :: rest) ∧
        ∀ c ∈ codes, isCodeChar c = true := by
  induction s with
  | nil =>
    intro pre codes rest h
    simp [findMatch] at h
  | cons c t ih =>
    intro pre codes rest h
    have fallback :
        (findMatch t).map (fun x => (c :: x.1, x.2.1, x.2.2)) = some (pre, codes, rest) →
          c :: t = pre ++ '\x1b' :: '[' :: (codes ++ 'm' :: rest) ∧
            ∀ x ∈ codes, isCodeChar x = true := by
      intro hm
      rcases Option.map_eq_some'.1 hm with ⟨x, hx, hfx⟩
      obtain ⟨p', c', r'⟩ := x
      obtain ⟨h1, h2⟩ := Prod.mk.injEq .. ▸ hfx
      obtain ⟨h2, h3⟩ := Prod.mk.injEq .. ▸ h2
      subst h1
      subst h2
      subst h3
      obtain ⟨hs, hcs⟩ := ih p' c' r' hx
      constructor
      · rw [List.cons_append, ← hs]
      · exact hcs
    simp only [findMatch] at h
    split at h
    · rename_i hc
      subst hc
      split at h
      · rename_i u
        split at h
        · rename_i rest' heq
          obtain ⟨h1, h2⟩ := Prod.mk.injEq .. ▸ (Option.some.injEq .. ▸ h)
          obtain ⟨h2, h3⟩ := Prod.mk.injEq .. ▸ h2
          subst h1
          subst h2
          subst h3
          constructor
          · have hu : u.takeWhile isCodeChar ++ u.dropWhile isCodeChar = u :=
              List.takeWhile_append_dropWhile isCodeChar u
            rw [heq] at hu
            rw [List.nil_append, hu]
          · intro x hx
            exact List.mem_takeWhile_imp hx
        · exact fallback h
      · exact fallback h
    · exact fallback h

theorem findMatch_rest_lt {s pre codes rest : List Char}
    (h : findMatch s = some (pre, codes, rest)) : rest.length < s.length := by
  obtain ⟨hs, -⟩ := findMatch_some s pre codes rest h
  rw [hs]
  simp [List.length_append, List.length_cons]
  omega

theorem tokenizeF_succ_none {n : Nat} {s : List Char} (h : findMatch s = none) :
    tokenizeF (n + 1) s = ([], s) := by
  have e : tokenizeF (n + 1) s =
      match findMatch s with
      | none => ([], s)
      | some (pre, codes, rest) =>
        ((pre, codes) :: (tokenizeF n rest).1, (tokenizeF n rest).2) := rfl
  rw [e, h]

theorem tokenizeF_succ_some {n : Nat} {s pre codes rest : List Char}
    (h : findMatch s = some (pre, codes, rest)) :
    tokenizeF (n + 1) s = ((pre, codes) :: (tokenizeF n rest).1, (tokenizeF n rest).2) := by
  have e : tokenizeF (n + 1) s =
      match findMatch s with
      | none => ([], s)
      | some (pre, codes, rest) =>
        ((pre, codes) :: (tokenizeF n rest).1, (tokenizeF n rest).2) := rfl
  rw [e, h]

theorem tokenizeF_fuel (n : Nat) : ∀ (m : Nat) (s : List Char),
    s.length < n → s.length < m → tokenizeF n s = tokenizeF m s := by
  induction n with
  | zero =>
    intro m s hn
    exact absurd hn (Nat.not_lt_zero _)
  | succ n ih =>
    intro m s hn hm
    cases m with
    | zero => exact absurd hm (Nat.not_lt_zero _)
    | succ m =>
      cases hf : findMatch s with
      | none => rw [tokenizeF_succ_none hf, tokenizeF_succ_none hf]
      | some x =>
        obtain ⟨pre, codes, rest⟩ := x
        have hlt : rest.length < s.length := findMatch_rest_lt hf
        rw [tokenizeF_succ_some hf, tokenizeF_succ_some hf,
          ih m rest (by omega) (by omega)]

theorem tokenize_none {s : List Char} (h : findMatch s = none) :
    tokenize s = ([], s) := by
  show tokenizeF (s.length + 1) s = ([], s)
  exact tokenizeF_succ_none h

theorem tokenize_some {s pre codes rest : List Char}
    (h : findMatch s = some (pre, codes, rest)) :
    tokenize s = ((pre, codes) :: (tokenize rest).1, (tokenize rest).2) := by
  have hlt : rest.length < s.length := findMatch_rest_lt h
  show tokenizeF (s.length + 1) s = _
  rw [tokenizeF_succ_some h,
    tokenizeF_fuel s.length (rest.length + 1) rest (by omega) (by omega)]
  rfl

/-! ## Digit sub-codes always parse -/

theorem splitSemi_digits {l : List Char} (hl : ∀ c ∈ l, isCodeChar c = true) :
    ∀ p ∈ splitSemi l, ∀ c ∈ p, c.isDigit = true := by
  induction l with
  | nil =>
    intro p hp
    simp only [splitSemi, List.mem_singleton] at hp
    subst hp
    simp
  | cons c t ih =>
    intro p hp
    have htl : ∀ x ∈ t, isCodeChar x = true :=
      fun x hx => hl x (List.mem_cons_of_mem _ hx)
    by_cases hc : c = ';'
    · subst hc
      simp only [splitSemi, if_pos rfl] at hp
      rcases List.mem_cons.1 hp with rfl | hp2
      · simp
      · exact ih htl p hp2
    · have hcd : c.isDigit = true := by
        have hh := hl c (List.mem_cons_self _ _)
        simp only [isCodeChar, Bool.or_eq_true, decide_eq_true_eq] at hh
        exact hh.resolve_right hc
      simp only [splitSemi, if_neg hc] at hp
      cases hsp : splitSemi t with
      | nil =>
        rw [hsp] at hp
        simp only [List.mem_singleton] at hp
        subst hp
        intro x hx
        rcases List.mem_cons.1 hx with rfl | hx2
        · exact hcd
        · simp at hx2
      | cons h0 r =>
        rw [hsp] at hp
        rcases List.mem_cons.1 hp with rfl | hp2
        · intro x hx
          rcases List.mem_cons.1 hx with rfl | hx2
          · exact hcd
          · exact ih htl h0 (by rw [hsp]; exact List.mem_cons_self _ _) x hx2
        · exact ih htl p (by rw [hsp]; exact List.mem_cons_of_mem _ hp2)

theorem pyInt_ok {p : List Char} (hne : p ≠ []) (hd : ∀ c ∈ p, c.isDigit = true) :
    (pyInt p).isOk = true := by
  have h1 : p.isEmpty = false := by
    simpa [List.isEmpty_iff] using hne
  have h2 : p.all Char.isDigit = true := List.all_eq_true.2 hd
  simp [pyInt, h1, h2, Except.isOk, Except.toBool]

/-! ## Main renderer inductions -/

theorem renderToks_strip (toks : List (List Char × List Char)) :
    ∀ (tl : List Char) (st : Style) (opn : Bool), StyleOk st →
      unescape (stripTags false (renderToks toks tl st opn)) = stripToks toks tl := by
  induction toks with
  | nil =>
    intro tl st opn hst
    have hpre : ∀ c ∈ htmlEscape tl, c ≠ '<' := fun c hc => (htmlEscape_noAngle hc).1
    show unescape (stripTags false (htmlEscape tl ++ (if opn then closeTagL else []))) = tl
    rw [stripTags_app_noLt _ hpre]
    have hx : stripTags false (if opn then closeTagL else []) = [] := by
      cases opn <;> rfl
    rw [hx, List.append_nil, unescape_htmlEscape]
  | cons tok rest ih =>
    obtain ⟨pre, codes⟩ := tok
    intro tl st opn hst
    have hpre : ∀ c ∈ htmlEscape pre, c ≠ '<' := fun c hc => (htmlEscape_noAngle hc).1
    by_cases hreset : codes = [] ∨ codes = ['0']
    · have e : renderToks ((pre, codes) :: rest) tl st opn
          = htmlEscape pre ++
            ((if opn then closeTagL else []) ++ renderToks rest tl ⟨none, false⟩ false) := by
        simp only [renderToks, if_pos hreset, List.append_assoc]
      rw [e, stripTags_app_noLt _ hpre]
      have hx : stripTags false
          ((if opn then closeTagL else []) ++ renderToks rest tl ⟨none, false⟩ false)
          = stripTags false (renderToks rest tl ⟨none, false⟩ false) := by
        cases opn
        · rfl
        · exact stripTags_close _
      rw [hx, unescape_escape, ih tl ⟨none, false⟩ false styleOk_empty]
      rfl
    · have hst1 : StyleOk (procSubs (splitSemi codes) st opn).2.1 :=
        procSubs_styleOk _ _ _ hst
      have e : renderToks ((pre, codes) :: rest) tl st opn
          = htmlEscape pre ++ ((procSubs (splitSemi codes) st opn).1 ++
              ((if (procSubs (splitSemi codes) st opn).2.2 then closeTagL else []) ++
                (if (styleToHtml (procSubs (splitSemi codes) st opn).2.1).isEmpty then
                  renderToks rest tl (procSubs (splitSemi codes) st opn).2.1 false
                else
                  openTagL (procSubs (splitSemi codes) st opn).2.1 ++
                    renderToks rest tl (procSubs (splitSemi codes) st opn).2.1 true))) := by
        simp only [renderToks, if_neg hreset, List.append_assoc]
      have hems : ∀ X : List Char,
          stripTags false ((procSubs (splitSemi codes) st opn).1 ++ X) = stripTags false X := by
        intro X
        cases opn with
        | false =>
          rw [(procSubs_false (splitSemi codes) st).1]
          rfl
        | true =>
          rcases procSubs_true (splitSemi codes) st with ⟨h1, -⟩ | ⟨h1, -⟩
          · rw [h1]
            rfl
          · rw [h1]
            exact stripTags_close X
      have hcl : ∀ X : List Char,
          stripTags false
            ((if (procSubs (splitSemi codes) st opn).2.2 then closeTagL else []) ++ X)
            = stripTags false X := by
        intro X
        cases hb : (procSubs (splitSemi codes) st opn).2.2
        · rfl
        · exact stripTags_close X
      rw [e, stripTags_app_noLt _ hpre, hems, hcl, unescape_escape]
      have hrec : unescape (stripTags false
          (if (styleToHtml (procSubs (splitSemi codes) st opn).2.1).isEmpty then
            renderToks rest tl (procSubs (splitSemi codes) st opn).2.1 false
          else
            openTagL (procSubs (splitSemi codes) st opn).2.1 ++
              renderToks rest tl (procSubs (splitSemi codes) st opn).2.1 true))
          = stripToks rest tl := by
        cases hif : (styleToHtml (procSubs (splitSemi codes) st opn).2.1).isEmpty
        · rw [if_neg (by simp)]
          rw [stripTags_open _ _ (fun c hc => (styleToHtml_noAng hst1 c hc).2)]
          exact ih tl _ true hst1
        · rw [if_pos rfl]
          exact ih tl _ false hst1
      rw [hrec]
      rfl

theorem renderToks_bal (toks : List (List Char × List Char)) :
    ∀ (tl : List Char) (st : Style) (opn : Bool), StyleOk st →
      balAux (renderToks toks tl st opn) (if opn then 1 else 0) = true := by
  induction toks with
  | nil =>
    intro tl st opn hst
    have hpre : ∀ c ∈ htmlEscape tl, c ≠ '<' := fun c hc => (htmlEscape_noAngle hc).1
    show balAux (htmlEscape tl ++ (if opn then closeTagL else [])) (if opn then 1 else 0) = true
    rw [balAux_app_noLt _ _ hpre]
    cases opn <;> rfl
  | cons tok rest ih =>
    obtain ⟨pre, codes⟩ := tok
    intro tl st opn hst
    have hpre : ∀ c ∈ htmlEscape pre, c ≠ '<' := fun c hc => (htmlEscape_noAngle hc).1
    by_cases hreset : codes = [] ∨ codes = ['0']
    · have e : renderToks ((pre, codes) :: rest) tl st opn
          = htmlEscape pre ++
            ((if opn then closeTagL else []) ++ renderToks rest tl ⟨none, false⟩ false) := by
        simp only [renderToks, if_pos hreset, List.append_assoc]
      rw [e, balAux_app_noLt _ _ hpre]
      cases opn
      · simpa using ih tl ⟨none, false⟩ false styleOk_empty
      · rw [show (if true then closeTagL else ([] : List Char)) = closeTagL from rfl,
          show (if true then (1 : Nat) else 0) = 1 from rfl, balAux_close]
        simpa using ih tl ⟨none, false⟩ false styleOk_empty
    · have hst1 : StyleOk (procSubs (splitSemi codes) st opn).2.1 :=
        procSubs_styleOk _ _ _ hst
      have e : renderToks ((pre, codes) :: rest) tl st opn
          = htmlEscape pre ++ ((procSubs (splitSemi codes) st opn).1 ++
              ((if (procSubs (splitSemi codes) st opn).2.2 then closeTagL else []) ++
                (if (styleToHtml (procSubs (splitSemi codes) st opn).2.1).isEmpty then
                  renderToks rest tl (procSubs (splitSemi codes) st opn).2.1 false
                else
                  openTagL (procSubs (splitSemi codes) st opn).2.1 ++
                    renderToks rest tl (procSubs (splitSemi codes) st opn).2.1 true))) := by
        simp only [renderToks, if_neg hreset, List.append_assoc]
      have hems : ∀ X : List Char,
          balAux ((procSubs (splitSemi codes) st opn).1 ++ X) (if opn then 1 else 0)
            = balAux X (if (procSubs (splitSemi codes) st opn).2.2 then 1 else 0) := by
        intro X
        cases opn with
        | false =>
          rw [(procSubs_false (splitSemi codes) st).1, (procSubs_false (splitSemi codes) st).2]
          rfl
        | true =>
          rcases procSubs_true (splitSemi codes) st with ⟨h1, h2⟩ | ⟨h1, h2⟩
          · rw [h1, h2]
            rfl
          · rw [h1, h2]
            exact balAux_close X
      have hcl : ∀ X : List Char,
          balAux ((if (procSubs (splitSemi codes) st opn).2.2 then closeTagL else []) ++ X)
              (if (procSubs (splitSemi codes) st opn).2.2 then 1 else 0)
            = balAux X 0 := by
        intro X
        cases hb : (procSubs (splitSemi codes) st opn).2.2
        · rfl
        · exact balAux_close X
      rw [e, balAux_app_noLt _ _ hpre, hems, hcl]
      cases hif : (styleToHtml (procSubs (splitSemi codes) st opn).2.1).isEmpty
      · rw [if_neg (by simp)]
        rw [balAux_open _ _ (fun c hc => (styleToHtml_noAng hst1 c hc).1)]
        simpa using ih tl _ true hst1
      · rw [if_pos rfl]
        simpa using ih tl _ false hst1

/-! ## Derived facts used by the claim theorems -/

theorem ansiToHtml_of_none {s : List Char} (h : findMatch s = none) :
    ansiToHtml s = htmlEscape s := by
  rw [ansiToHtml, tokenize_none h]
  show htmlEscape s ++ (if false then closeTagL else []) = htmlEscape s
  simp

theorem containsSub_mem {p l : List Char} {c : Char} (hc : c ∈ p)
    (h : containsSub p l = true) : c ∈ l := by
  rcases (containsSub_iff p l).1 h with ⟨u, v, rfl⟩
  exact List.mem_append.2 (Or.inl (List.mem_append.2 (Or.inr hc)))

theorem htmlEscape_noSpanTag (s : List Char) :
    containsSub "<span".toList (htmlEscape s) = false := by
  cases hcs : containsSub "<span".toList (htmlEscape s) with
  | false => rfl
  | true =>
    have hmem : '<' ∈ htmlEscape s := containsSub_mem (by decide) hcs
    exact absurd rfl (htmlEscape_noAngle hmem).1

theorem classifyLine_no_esc {s : List Char} (h : containsSub escIntro s = false) :
    classifyLine s = keywordClassify (pyLower (pyStrip s)) := by
  simp [classifyLine, h]

theorem any_containsSub_iff (ts : List (List Char)) (t : List Char) :
    ts.any (fun x => containsSub x t) = true ↔ ∃ x ∈ ts, OccursIn x t := by
  rw [List.any_eq_true]
  constructor
  · rintro ⟨x, hx, hc⟩
    exact ⟨x, hx, (containsSub_iff x t).1 hc⟩
  · rintro ⟨x, hx, ho⟩
    exact ⟨x, hx, (containsSub_iff x t).2 ho⟩

theorem any_containsSub_false (ts : List (List Char)) (t : List Char)
    (h : ∀ x ∈ ts, ¬OccursIn x t) : ts.any (fun x => containsSub x t) = false := by
  rw [Bool.eq_false_iff]
  intro hb
  rcases (any_containsSub_iff ts t).1 hb with ⟨x, hx, ho⟩
  exact h x hx ho

theorem kw_error {t : List Char} (h : ∃ x ∈ errorTokens, OccursIn x t) :
    keywordClassify t = "error".toList := by
  rw [keywordClassify, if_pos ((any_containsSub_iff _ _).2 h)]

theorem kw_warning {t : List Char} (h0 : ∀ x ∈ errorTokens, ¬OccursIn x t)
    (h : ∃ x ∈ warningTokens, OccursIn x t) :
    keywordClassify t = "warning".toList := by
  rw [keywordClassify]
  rw [if_neg (by simp [any_containsSub_false _ _ h0]), if_pos ((any_containsSub_iff _ _).2 h)]

theorem kw_info {t : List Char}
    (h0 : ∀ x ∈ errorTokens ++ warningTokens, ¬OccursIn x t)
    (h : ∃ x ∈ infoTokens, OccursIn x t) :
    keywordClassify t = "info".toList := by
  have he := any_containsSub_false errorTokens t
    (fun x hx => h0 x (List.mem_append_left _ hx))
  have hw := any_containsSub_false warningTokens t
    (fun x hx => h0 x (List.mem_append_right _ hx))
  rw [keywordClassify, if_neg (by simp [he]), if_neg (by simp [hw]),
    if_pos ((any_containsSub_iff _ _).2 h)]

theorem kw_debug {t : List Char}
    (h0 : ∀ x ∈ errorTokens ++ warningTokens ++ infoTokens, ¬OccursIn x t)
    (h : ∃ x ∈ debugTokens, OccursIn x t) :
    keywordClassify t = "debug".toList := by
  have he := any_containsSub_false errorTokens t
    (fun x hx => h0 x (List.mem_append_left _ (List.mem_append_left _ hx)))
  have hw := any_containsSub_false warningTokens t
    (fun x hx => h0 x (List.mem_append_left _ (List.mem_append_right _ hx)))
  have hi := any_containsSub_false infoTokens t
    (fun x hx => h0 x (List.mem_append_right _ hx))
  rw [keywordClassify, if_neg (by simp [he]), if_neg (by simp [hw]), if_neg (by simp [hi]),
    if_pos ((any_containsSub_iff _ _).2 h)]

theorem kw_verbose {t : List Char}
    (h0 : ∀ x ∈ errorTokens ++ warningTokens ++ infoTokens ++ debugTokens, ¬OccursIn x t)
    (h : ∃ x ∈ verboseTokens, OccursIn x t) :
    keywordClassify t = "verbose".toList := by
  have he := any_containsSub_false errorTokens t
    (fun x hx => h0 x (by simp [List.mem_append, hx]))
  have hw := any_containsSub_false warningTokens t
    (fun x hx => h0 x (by simp [List.mem_append, hx]))
  have hi := any_containsSub_false infoTokens t
    (fun x hx => h0 x (by simp [List.mem_append, hx]))
  have hd := any_containsSub_false debugTokens t
    (fun x hx => h0 x (by simp [List.mem_append, hx]))
  rw [keywordClassify, if_neg (by simp [he]), if_neg (by simp [hw]), if_neg (by simp [hi]),
    if_neg (by simp [hd]), if_pos ((any_containsSub_iff _ _).2 h)]

theorem kw_default {t : List Char}
    (h0 : ∀ x ∈ errorTokens ++ warningTokens ++ infoTokens ++ debugTokens ++ verboseTokens,
      ¬OccursIn x t) :
    keywordClassify t = "default".toList := by
  have he := any_containsSub_false errorTokens t
    (fun x hx => h0 x (by simp [List.mem_append, hx]))
  have hw := any_containsSub_false warningTokens t
    (fun x hx => h0 x (by simp [List.mem_append, hx]))
  have hi := any_containsSub_false infoTokens t
    (fun x hx => h0 x (by simp [List.mem_append, hx]))
  have hd := any_containsSub_false debugTokens t
    (fun x hx => h0 x (by simp [List.mem_append, hx]))
  have hv := any_containsSub_false verboseTokens t
    (fun x hx => h0 x (by simp [List.mem_append, hx]))
  rw [keywordClassify, if_neg (by simp [he]), if_neg (by simp [hw]), if_neg (by simp [hi]),
    if_neg (by simp [hd]), if_neg (by simp [hv])]

theorem procSubs_foldl (cs : List (List Char)) : ∀ (st : Style) (opn : Bool),
    (procSubs cs st opn).2.1 = cs.foldl specSubStyle st := by
  induction cs with
  | nil =>
    intro st opn
    rfl
  | cons c cs ih =>
    intro st opn
    by_cases hce : c.isEmpty
    · have hc : c = [] := List.isEmpty_iff.1 hce
      subst hc
      rw [show procSubs ([] :: cs) st opn = procSubs cs st opn from by simp [procSubs]]
      rw [ih st opn]
      simp [List.foldl_cons, specSubStyle, pyInt]
    · rcases hpi : pyInt c with e | n
      · rw [show (procSubs (c :: cs) st opn).2.1 = (procSubs cs st opn).2.1 from by
          simp [procSubs, hce, hpi]]
        rw [ih st opn]
        simp [List.foldl_cons, specSubStyle, hpi]
      · by_cases h0 : n = 0
        · rw [show (procSubs (c :: cs) st opn).2.1 = (procSubs cs ⟨none, false⟩ false).2.1 from by
            simp [procSubs, hce, hpi, h0]]
          rw [ih ⟨none, false⟩ false]
          simp [List.foldl_cons, specSubStyle, hpi, h0]
        · by_cases h1 : n = 1
          · rw [show (procSubs (c :: cs) st opn).2.1 = (procSubs cs ⟨st.color, true⟩ opn).2.1 from by
              simp [procSubs, hce, hpi, h0, h1]]
            rw [ih ⟨st.color, true⟩ opn]
            simp [List.foldl_cons, specSubStyle, hpi, h0, h1]
          · by_cases hr : (30 ≤ n ∧ n ≤ 37) ∨ (90 ≤ n ∧ n ≤ 97)
            · rw [show (procSubs (c :: cs) st opn).2.1
                  = (procSubs cs ⟨some (ansiColorGet n), st.bold⟩ opn).2.1 from by
                simp [procSubs, hce, hpi, h0, h1, hr]]
              rw [ih ⟨some (ansiColorGet n), st.bold⟩ opn]
              simp [List.foldl_cons, specSubStyle, hpi, h0, h1, hr]
            · rw [show (procSubs (c :: cs) st opn).2.1 = (procSubs cs st opn).2.1 from by
                simp [procSubs, hce, hpi, h0, h1, hr]]
              rw [ih st opn]
              simp [List.foldl_cons, specSubStyle, hpi, h0, h1, hr]

/-! ## Claim theorems -/

/-- C1, counterexample: the input `"I (123) boot: ready"` matches the
claim's level-tag pattern with category `info`, yet `classify_line`
returns `'default'` — the code has no level-tag rule at all. -/
theorem claim_C1_cex :
    specLevelTagCat "I (123) boot: ready".toList = some "info".toList ∧
    classifyLine "I (123) boot: ready".toList = "default".toList ∧
    "default".toList ≠ "info".toList := by
  refine ⟨by decide, by decide, by decide⟩

/-- C1, amended: `classify_line` implements no level-tag pattern; a
plain `I (...)` line falls through every keyword list to `'default'`,
and `"E (99) wifi: failed"` is classified `'error'` only because of the
substring `"fail"`. -/
theorem claim_C1_amended :
    classifyLine "I (123) boot: ready".toList = "default".toList ∧
    classifyLine "E (99) wifi: failed".toList = "error".toList := by
  refine ⟨by decide, by decide⟩

/-- C2: for every input, dropping the span tags from the output of
`ansi_to_html` and decoding the `&amp;`/`&lt;`/`&gt;` entities yields
exactly the input with every recognized ANSI escape sequence removed. -/
theorem claim_C2 (s : List Char) :
    unescape (stripTags false (ansiToHtml s)) = stripAnsi s :=
  renderToks_strip (tokenize s).1 (tokenize s).2 ⟨none, false⟩ false styleOk_empty

/-- C3: for every input, the fragment produced by `ansi_to_html` has
properly balanced span tags: every opened span is closed exactly once,
no span dangles open at the end, and spans never nest (depth stays at
most 1). -/
theorem claim_C3 (s : List Char) : spanBalanced (ansiToHtml s) = true := by
  have h := renderToks_bal (tokenize s).1 (tokenize s).2 ⟨none, false⟩ false styleOk_empty
  simpa [spanBalanced, ansiToHtml] using h

/-- C4, counterexample: the claim says every numeric sub-code other than
`1` and the color ranges leaves the style state unchanged, but the code
treats a `0` sub-code inside a longer code list as a reset: after
`"1"` sets bold, `"0"` clears the state, so `"\x1b[1;0mX"` renders with
no span at all. -/
theorem claim_C4_cex :
    (procSubs [['1'], ['0']] ⟨none, false⟩ false).2.1 ≠
      List.foldl claimSubStyle ⟨none, false⟩ [['1'], ['0']] ∧
    ansiToHtml "\x1b[1;0mX".toList = "X".toList := by
  refine ⟨by decide, by decide⟩

/-- C4, amended: the sub-code loop updates the style exactly as the
claim states except that a `0` sub-code clears the whole style state
(and closes any open span): the final style is the left fold of the
per-sub-code function that maps `0` to the empty style, `1` to bold,
the two color ranges to the palette color, and ignores everything
else. -/
theorem claim_C4_amended (codes : List Char) (st : Style) (opn : Bool) :
    (procSubs (splitSemi codes) st opn).2.1 = (splitSemi codes).foldl specSubStyle st :=
  procSubs_foldl (splitSemi codes) st opn

/-- C5, counterexample: two consecutive escapes with no text between
them do emit an empty span — for `"\x1b[31m\x1b[32mX"` the output
contains the red open tag immediately followed by `</span>`. -/
theorem claim_C5_cex :
    containsSub (openTagL ⟨some "#ff4d4d".toList, false⟩ ++ closeTagL)
      (ansiToHtml "\x1b[31m\x1b[32mX".toList) = true := by
  decide

/-- C5, amended: `ansi_to_html` may emit empty spans: when an escape
follows another escape with no text in between, the span opened by the
first is closed only while handling the second, producing an empty
span, as in this exact output. -/
theorem claim_C5_amended :
    ansiToHtml "\x1b[31m\x1b[32mX".toList =
      ("<span style=\"color:#ff4d4d\"></span>" ++
        "<span style=\"color:#00ff00\">X</span>").toList := by
  decide

/-- C8: both core functions are total Lean functions by construction,
and the only fallible operation in either — `int(c)` on a sub-code —
never fails on a reachable sub-code: every piece of the `;`-split of a
recognized escape's group is empty (skipped) or a digit string that
parses. -/
theorem claim_C8 (s pre codes rest : List Char)
    (h : findMatch s = some (pre, codes, rest)) :
    ∀ p ∈ splitSemi codes, p = [] ∨ (pyInt p).isOk = true := by
  intro p hp
  have hcodes := (findMatch_some s pre codes rest h).2
  by_cases hpe : p = []
  · exact Or.inl hpe
  · exact Or.inr (pyInt_ok hpe (splitSemi_digits hcodes p hp))

/-- Witness for C8 at the concrete escape `"\x1b[1;31mOK"`. -/
theorem claim_C8_witness :
    findMatch "\x1b[1;31mOK".toList = some ([], "1;31".toList, "OK".toList) ∧
    (pyInt "31".toList).isOk = true := by
  refine ⟨by decide, ?_⟩
  have h := claim_C8 "\x1b[1;31mOK".toList [] "1;31".toList "OK".toList (by decide)
    "31".toList (by decide)
  exact h.resolve_left (by decide)

/-- C9: an input with no match of the ANSI escape pattern is rendered
as exactly its HTML-escaped text, with no span tag emitted. -/
theorem claim_C9 (s : List Char) (h : findMatch s = none) :
    ansiToHtml s = htmlEscape s ∧
    containsSub "<span".toList (ansiToHtml s) = false := by
  have he := ansiToHtml_of_none h
  refine ⟨he, ?_⟩
  rw [he]
  exact htmlEscape_noSpanTag s

/-- Witness for C9 at the concrete escape-free input `"hi <&> there"`. -/
theorem claim_C9_witness :
    findMatch "hi <&> there".toList = none ∧
    ansiToHtml "hi <&> there".toList = htmlEscape "hi <&> there".toList :=
  ⟨by decide, (claim_C9 _ (by decide)).1⟩

/-- C10: only sequences of the exact shape `ESC '[' [0-9;]* 'm'` are
recognized: every match decomposes the input that way with only
digit-or-semicolon group characters; and an input with no such match —
e.g. `ESC [2J` or a truncated `ESC [31` — is emitted entirely
(entity-escaped) as visible text, as the decoded output equals the
input. -/
theorem claim_C10 :
    (∀ s pre codes rest : List Char, findMatch s = some (pre, codes, rest) →
      s = pre ++ '\x1b' :: '[' :: (codes ++ 'm' :: rest) ∧
        ∀ c ∈ codes, isCodeChar c = true) ∧
    (∀ s : List Char, findMatch s = none → unescape (ansiToHtml s) = s) := by
  constructor
  · exact fun s => findMatch_some s
  · intro s h
    rw [ansiToHtml_of_none h, unescape_htmlEscape]

/-- Witness for C10 at a real match and at two non-matching
escape-like inputs. -/
theorem claim_C10_witness :
    "a\x1b[31mX".toList
      = "a".toList ++ '\x1b' :: '[' :: ("31".toList ++ 'm' :: "X".toList) ∧
    unescape (ansiToHtml "\x1b[2J".toList) = "\x1b[2J".toList ∧
    unescape (ansiToHtml "a\x1b[31".toList) = "a\x1b[31".toList := by
  refine ⟨(claim_C10.1 "a\x1b[31mX".toList "a".toList "31".toList "X".toList (by decide)).1,
    claim_C10.2 "\x1b[2J".toList (by decide),
    claim_C10.2 "a\x1b[31".toList (by decide)⟩

/-- C6, counterexample: `classify_line "[w] radio up"` returns
`'warning'` although none of the claim's keyword lists (error, warn,
info, debug/dbg, verb/trace) occurs in the line — the code also matches
the extra tokens `" w "`, `"[w]"`, `" w/"` and friends, which the claim
omits. -/
theorem claim_C6_cex :
    containsSub escIntro "[w] radio up".toList = false ∧
    classifyLine "[w] radio up".toList = "warning".toList ∧
    specC6Tokens.all
      (fun x => !containsSub x (pyLower (pyStrip "[w] radio up".toList))) = true ∧
    "warning".toList ≠ "debug".toList ∧ "warning".toList ≠ "default".toList := by
  refine ⟨by decide, by decide, by decide, by decide, by decide⟩

/-- C6, amended: on lines without the escape introducer,
`classify_line` does case-insensitive substring search on the stripped,
lowered line in the priority error → warning → info → debug → verbose
with first match winning, but over the extended token lists of the code
(error also has `" e "`, `"[e]"`, `" e/"`; warning also has
`"warning"`, `" w "`, `"[w]"`, `" w/"`; similarly for the remaining
categories), and the fallback is `'default'`;
`classify_line "this is a fatal crash"` = `'error'` and
`classify_line "hello world"` = `'default'`. -/
theorem claim_C6_amended :
    (∀ s : List Char, containsSub escIntro s = false →
      ((∃ x ∈ errorTokens, OccursIn x (pyLower (pyStrip s))) →
        classifyLine s = "error".toList) ∧
      ((∀ x ∈ errorTokens, ¬OccursIn x (pyLower (pyStrip s))) →
        (∃ x ∈ warningTokens, OccursIn x (pyLower (pyStrip s))) →
          classifyLine s = "warning".toList) ∧
      ((∀ x ∈ errorTokens ++ warningTokens, ¬OccursIn x (pyLower (pyStrip s))) →
        (∃ x ∈ infoTokens, OccursIn x (pyLower (pyStrip s))) →
          classifyLine s = "info".toList) ∧
      ((∀ x ∈ errorTokens ++ warningTokens ++ infoTokens,
          ¬OccursIn x (pyLower (pyStrip s))) →
        (∃ x ∈ debugTokens, OccursIn x (pyLower (pyStrip s))) →
          classifyLine s = "debug".toList) ∧
      ((∀ x ∈ errorTokens ++ warningTokens ++ infoTokens ++ debugTokens,
          ¬OccursIn x (pyLower (pyStrip s))) →
        (∃ x ∈ verboseTokens, OccursIn x (pyLower (pyStrip s))) →
          classifyLine s = "verbose".toList) ∧
      ((∀ x ∈ errorTokens ++ warningTokens ++ infoTokens ++ debugTokens ++ verboseTokens,
          ¬OccursIn x (pyLower (pyStrip s))) →
        classifyLine s = "default".toList)) ∧
    classifyLine "this is a fatal crash".toList = "error".toList ∧
    classifyLine "hello world".toList = "default".toList := by
  refine ⟨?_, by decide, by decide⟩
  intro s hesc
  rw [classifyLine_no_esc hesc]
  exact ⟨kw_error, kw_warning, kw_info, kw_debug, kw_verbose, kw_default⟩

/-- Witness for C6 at `"this is a fatal crash"` (the token `"fatal"`
occurs, so the priority cascade yields `'error'`). -/
theorem claim_C6_witness :
    containsSub escIntro "this is a fatal crash".toList = false ∧
    classifyLine "this is a fatal crash".toList = "error".toList := by
  refine ⟨by decide, ?_⟩
  exact (claim_C6_amended.1 "this is a fatal crash".toList (by decide)).1
    ⟨"fatal".toList, by decide, (containsSub_iff _ _).1 (by decide)⟩

/-- C7, counterexample: `"hello world"` contains no escape introducer,
matches no level-tag pattern and contains none of the claim's severity
keywords, yet `classify_line` returns `'default'`, not the claimed
`'debug'`. -/
theorem claim_C7_cex :
    containsSub escIntro "hello world".toList = false ∧
    specLevelTagCat "hello world".toList = none ∧
    specC6Tokens.all
      (fun x => !containsSub x (pyLower (pyStrip "hello world".toList))) = true ∧
    classifyLine "hello world".toList = "default".toList ∧
    "default".toList ≠ "debug".toList := by
  refine ⟨by decide, by decide, by decide, by decide, by decide⟩

/-- C7, amended: for a line with no escape introducer and none of the
code's keyword tokens, `classify_line` returns the fallback category
`'default'`. -/
theorem claim_C7_amended (s : List Char)
    (hesc : containsSub escIntro s = false)
    (hkw : ∀ x ∈ errorTokens ++ warningTokens ++ infoTokens ++ debugTokens ++ verboseTokens,
      ¬OccursIn x (pyLower (pyStrip s))) :
    classifyLine s = "default".toList := by
  rw [classifyLine_no_esc hesc]
  exact kw_default hkw

/-- Witness for C7 at the concrete keyword-free input
`"zzz quiet line"`. -/
theorem claim_C7_witness :
    containsSub escIntro "zzz quiet line".toList = false ∧
    classifyLine "zzz quiet line".toList = "default".toList :=
  ⟨by decide, claim_C7_amended "zzz quiet line".toList (by decide) (by decide)⟩

end Esp32
